import Mathlib

/-!
Verification of the niko-cli core against its specification.

The Go sources embedded here:
  - internal/executor/safety.go   (RiskLevel, AssessRisk, ShouldAutoExecute, IsBlocked)
  - internal/executor/runner.go   (Runner.Run, Runner.RunInteractive)
  - the command extractor (ExtractCommand, looksLikeCommand)
  - internal/llm/local.go         (selectModelByRAM)
  - the cli query orchestrator processQuery (risk gating decision)

Strings are modelled as `List Char`; Go's regexp.MatchString is modelled by a
Brzozowski-derivative matcher over a small regex AST covering exactly the
constructs the safety patterns use.  The two capture-group regexes of the
extractor are modelled by dedicated leftmost-first searchers.
-/

/-- The backtick character, written via its code point. -/
def btick : Char := Char.ofNat 96

/-- Left brace character. -/
def lbrace : Char := Char.ofNat 123

/-- Right brace character. -/
def rbrace : Char := Char.ofNat 125

/-- Embeds Go `unicode.IsSpace` restricted to the code points Go's
`strings.TrimSpace` strips in Latin-1: tab, newline, vertical tab, form feed,
carriage return, space, NEL and NBSP. -/
def isGoSpace (c : Char) : Bool :=
  c = ' ' || c = '\t' || c = '\n' || c = '\x0b' || c = '\x0c' || c = '\r' ||
  c = '\x85' || c = '\xa0'

/-- Drop leading Go whitespace (left half of `strings.TrimSpace`). -/
def trimLeftGo (l : List Char) : List Char := l.dropWhile isGoSpace

/-- Drop trailing Go whitespace (right half of `strings.TrimSpace`). -/
def trimRightGo (l : List Char) : List Char :=
  (l.reverse.dropWhile isGoSpace).reverse

/-- Embeds Go `strings.TrimSpace`. -/
def goTrimSpace (l : List Char) : List Char := trimRightGo (trimLeftGo l)

/-- Embeds Go `strings.TrimSpace` at the `String` level. -/
def goTrimString (s : String) : String := ⟨goTrimSpace s.data⟩

/-- Embeds Go `strings.Contains s sub` (true when `sub` occurs in `s`). -/
def goContains (s sub : List Char) : Bool :=
  match s with
  | [] => sub.isEmpty
  | _ :: t => sub.isPrefixOf s || goContains t sub

/-- Embeds Go `strings.TrimPrefix l p`. -/
def dropPre (p l : List Char) : List Char :=
  if p.isPrefixOf l then l.drop p.length else l

/-- Embeds Go `strings.Split l "\n"`. -/
def splitNl : List Char → List (List Char)
  | [] => [[]]
  | c :: rest =>
    if c = '\n' then [] :: splitNl rest
    else
      match splitNl rest with
      | h :: t => (c :: h) :: t
      | [] => [[c]]

/-- Go `len` of a string: total UTF-8 byte length. -/
def utf8Len (l : List Char) : Nat := (l.map Char.utf8Size).sum

/-! ## Regex AST and Brzozowski-derivative matcher -/

/-- Regex AST: failure, empty word, a (possibly negated) character class,
concatenation, alternation and Kleene star.  `cls false cs` matches exactly
the characters in `cs`; `cls true cs` matches every character not in `cs`. -/
inductive Rx where
  | fail : Rx
  | eps : Rx
  | cls : Bool → List Char → Rx
  | seq : Rx → Rx → Rx
  | alt : Rx → Rx → Rx
  | star : Rx → Rx
deriving Repr, DecidableEq

/-- Smart concatenation absorbing `fail` and `eps`. -/
def mkSeq (a b : Rx) : Rx :=
  match a, b with
  | .fail, _ => .fail
  | _, .fail => .fail
  | .eps, u => u
  | u, .eps => u
  | u, v => .seq u v

/-- Smart alternation absorbing `fail`. -/
def mkAlt (a b : Rx) : Rx :=
  match a, b with
  | .fail, u => u
  | u, .fail => u
  | u, v => .alt u v

/-- Does the regex accept the empty word? -/
def nullable : Rx → Bool
  | .fail => false
  | .eps => true
  | .cls _ _ => false
  | .seq a b => nullable a && nullable b
  | .alt a b => nullable a || nullable b
  | .star _ => true

/-- Brzozowski derivative with respect to character `c`. -/
def rderiv (c : Char) : Rx → Rx
  | .fail => .fail
  | .eps => .fail
  | .cls neg cs => if cs.contains c = neg then .fail else .eps
  | .seq a b =>
    if nullable a then mkAlt (mkSeq (rderiv c a) b) (rderiv c b)
    else mkSeq (rderiv c a) b
  | .alt a b => mkAlt (rderiv c a) (rderiv c b)
  | .star a => mkSeq (rderiv c a) (.star a)

/-- Does the regex accept exactly the whole word? -/
def rxMatch : Rx → List Char → Bool
  | r, [] => nullable r
  | r, c :: rest => rxMatch (rderiv c r) rest

/-- Class matching any single character (used for unanchored padding). -/
def anyc : Rx := .cls true []

/-- Go regex `.`: any character except newline. -/
def rdot : Rx := .cls true ['\n']

/-- Go regex `\s`: the Perl whitespace class `[\t\n\f\r ]`. -/
def rws : Rx := .cls false ['\t', '\n', '\x0c', '\r', ' ']

/-- Single literal character. -/
def rchar (c : Char) : Rx := .cls false [c]

/-- Literal string. -/
def rstr (s : String) : Rx := s.data.foldr (fun c acc => mkSeq (rchar c) acc) .eps

/-- One or more repetitions. -/
def rplus (r : Rx) : Rx := mkSeq r (.star r)

/-- Zero or one repetition. -/
def ropt (r : Rx) : Rx := .alt r .eps

/-- Alternation of a list (first-to-last). -/
def ralts : List Rx → Rx
  | [] => .fail
  | [r] => r
  | r :: rest => .alt r (ralts rest)

/-- Concatenation of a list. -/
def rcat (rs : List Rx) : Rx := rs.foldr mkSeq .eps

/-- Unanchored `regexp.MatchString`: pad both sides with `.*` over all chars. -/
def srch (r : Rx) : Rx := mkSeq (.star anyc) (mkSeq r (.star anyc))

/-- `MatchString` for a pattern anchored at the start with `^`. -/
def srchStart (r : Rx) : Rx := mkSeq r (.star anyc)

/-- `MatchString` for a pattern anchored at the end with `$`. -/
def srchEnd (r : Rx) : Rx := mkSeq (.star anyc) r

/-! ## internal/executor/safety.go -/

/-- Embeds the Go `RiskLevel` enum (`Safe = iota`, then Moderate, Dangerous,
Critical). -/
inductive RiskLevel where
  | Safe : RiskLevel
  | Moderate : RiskLevel
  | Dangerous : RiskLevel
  | Critical : RiskLevel
deriving Repr, DecidableEq

/-- Numeric value of the Go enum constant, used for its `<=` / `<` tests. -/
def RiskLevel.toNat : RiskLevel → Nat
  | .Safe => 0
  | .Moderate => 1
  | .Dangerous => 2
  | .Critical => 3

/-- Embeds the Go `safeCommands` table verbatim. -/
def safeCommands : List String :=
  ["ls", "ll", "la", "dir",
   "pwd", "cd",
   "cat", "less", "more", "head", "tail",
   "grep", "rg", "ag", "ack",
   "find", "fd", "locate",
   "echo", "printf",
   "date", "cal",
   "whoami", "id", "who", "w",
   "uname", "hostname",
   "env", "printenv",
   "which", "whereis", "type",
   "man", "help", "info",
   "wc", "sort", "uniq", "cut", "tr",
   "diff", "cmp",
   "file", "stat",
   "df", "du",
   "free", "top", "htop", "ps", "pgrep",
   "uptime", "lscpu", "lsmem",
   "ping", "host", "dig", "nslookup",
   "curl", "wget", "http",
   "git status", "git log", "git diff", "git branch", "git remote",
   "docker ps", "docker images", "docker logs",
   "kubectl get", "kubectl describe", "kubectl logs",
   "npm list", "npm outdated", "npm view",
   "pip list", "pip show",
   "go list", "go version", "go env",
   "cargo --version", "rustc --version",
   "node --version", "python --version"]

/-- Embeds the Go `moderatePatterns` table: each entry is the `MatchString`
search regex for the written pattern (all are `^`-anchored). -/
def moderatePatterns : List Rx :=
  [srchStart (rcat [rstr "git", rplus rws,
     ralts [rstr "add", rstr "commit", rstr "stash", rstr "checkout", rstr "switch", rstr "merge"]]),
   srchStart (rcat [rstr "docker", rplus rws,
     ralts [rstr "build", rstr "run", rstr "exec", rstr "start", rstr "stop"]]),
   srchStart (rcat [rstr "kubectl", rplus rws,
     ralts [rstr "apply", rstr "create", rstr "delete", rstr "edit"]]),
   srchStart (rcat [rstr "npm", rplus rws,
     ralts [rstr "install", rstr "update", rstr "uninstall"]]),
   srchStart (rcat [rstr "pip", rplus rws,
     ralts [rstr "install", rstr "uninstall"]]),
   srchStart (rcat [rstr "go", rplus rws,
     ralts [rstr "build", rstr "install", rstr "get", rstr "mod"]]),
   srchStart (rcat [rstr "cargo", rplus rws,
     ralts [rstr "build", rstr "install", rstr "add", rstr "remove"]]),
   srchStart (rstr "mkdir"),
   srchStart (rstr "touch"),
   srchStart (rcat [rstr "cp", rws]),
   srchStart (rcat [rstr "mv", rws]),
   srchStart (rcat [rstr "ln", rws])]

/-- Embeds the Go `dangerousPatterns` table as `MatchString` search regexes. -/
def dangerousPatterns : List Rx :=
  [srchStart (rcat [rstr "rm", rws]),
   srchStart (rstr "rmdir"),
   srchStart (rcat [rstr "git", rplus rws,
     ralts [rstr "reset", rstr "rebase", rstr "push", rstr "force"]]),
   srch (rstr "--force"),
   srch (rstr "--hard"),
   srch (rcat [rstr "-rf", rws]),
   srchStart (rcat [rstr "docker", rplus rws,
     ralts [rstr "rm", rstr "rmi", rstr "prune", rcat [rstr "system", rplus rws, rstr "prune"]]]),
   srchStart (rcat [rstr "kubectl", rplus rws, rstr "delete"]),
   srchStart (rstr "chmod"),
   srchStart (rstr "chown"),
   srchStart (rstr "sudo"),
   srchStart (rcat [rstr "su", rws]),
   srchStart (rstr "kill"),
   srchStart (rstr "pkill"),
   srchStart (rstr "killall"),
   srch (rcat [rchar '>', .star rws, .cls true ['|']]),
   srch (rstr ">>")]

/-- Embeds the Go `criticalPatterns` table as `MatchString` search regexes.
The fork-bomb pattern's braces are written via `lbrace`/`rbrace`. -/
def criticalPatterns : List Rx :=
  [srch (rcat [rstr "rm", rplus rws,
     .alt (rcat [rstr "-r", ropt (rchar 'f')]) (rstr "--recursive"),
     .star rdot,
     ralts [rchar '/', rchar '~', rstr "$HOME", rchar '*', rstr "../"]]),
   srch (rcat [rstr "rm", rplus rws, rstr "-r", ropt (rchar 'f'), rplus rws, rchar '/']),
   srch (rcat [rstr "rm", rplus rws, rstr "-r", ropt (rchar 'f'), rplus rws, rchar '*']),
   srch (rcat [rstr "dd", rplus rws, rstr "if="]),
   srch (rstr "mkfs"),
   srch (rstr "fdisk"),
   srch (rstr "parted"),
   srch (rcat [rstr ":()", .star rws, rchar lbrace, .star rws, rchar ':', .star rws,
     rchar '|', .star rws, rchar ':', .star rws, rchar '&', .star rws,
     rchar rbrace, .star rws, rchar ';']),
   srch (rcat [rchar '>', .star rws, rstr "/dev/", ralts [rchar 's', rchar 'h', rchar 'v'], rchar 'd']),
   srch (rcat [rstr "chmod", rplus rws, ropt (rcat [rstr "-R", rplus rws]), rstr "777", rplus rws, rchar '/']),
   srch (rcat [rstr "chown", rplus rws, rstr "-R", .star rdot, rplus rws, rchar '/']),
   srch (rcat [rstr "wget", .star rdot, rchar '|', .star rws, ropt (rstr "ba"), rstr "sh"]),
   srch (rcat [rstr "curl", .star rdot, rchar '|', .star rws, ropt (rstr "ba"), rstr "sh"]),
   srchEnd (rcat [rchar '|', .star rws, rstr "sh", .star rws]),
   srchEnd (rcat [rchar '|', .star rws, rstr "bash", .star rws])]

/-- Embeds Go `AssessRisk` from safety.go, with the configured
`cfg.Safety.BlockedCommands` list made an explicit parameter.  The command is
trimmed, then the block list, the critical, dangerous and moderate pattern
tables and the safe-prefix table are consulted in that order; the default is
Moderate. -/
def AssessRisk (blocked : List String) (command : String) : RiskLevel :=
  let cmd := goTrimSpace command.data
  if blocked.any (fun b => goContains cmd b.data) then .Critical
  else if criticalPatterns.any (fun r => rxMatch r cmd) then .Critical
  else if dangerousPatterns.any (fun r => rxMatch r cmd) then .Dangerous
  else if moderatePatterns.any (fun r => rxMatch r cmd) then .Moderate
  else if safeCommands.any (fun p => p.data.isPrefixOf cmd) then .Safe
  else .Moderate

/-- Embeds Go `ShouldAutoExecute` from safety.go, with the configured
`cfg.Safety.AutoExecute` policy string made an explicit parameter. -/
def ShouldAutoExecute (autoExecute : String) (risk : RiskLevel) : Bool :=
  if autoExecute = "none" then false
  else if autoExecute = "safe" then risk = RiskLevel.Safe
  else if autoExecute = "moderate" then risk.toNat ≤ RiskLevel.Moderate.toNat
  else if autoExecute = "all" then risk.toNat < RiskLevel.Critical.toNat
  else risk = RiskLevel.Safe

/-- Embeds Go `IsBlocked` from safety.go (no trimming happens here). -/
def IsBlocked (blocked : List String) (command : String) : Bool :=
  blocked.any (fun b => goContains command.data b.data)

/-! ## internal/executor/runner.go -/

/-- Embeds the Go `Result` struct of runner.go.  `Error` is modelled as an
optional message. -/
structure RunResult where
  command : String
  exitCode : Int
  stdout : String
  stderr : String
  error : Option String
deriving Repr, DecidableEq

/-- What the spawned shell process would produce, modelling the effect of
`exec.CommandContext(...).Run()` plus the captured buffers. -/
structure ShellOutcome where
  exitCode : Int
  stdout : String
  stderr : String
  err : Option String
deriving Repr, DecidableEq

/-- Embeds Go `Runner.Run`: if the command is blocked the function returns a
`Result` with exit code 1 and a non-nil error before any process is created;
otherwise the shell oracle is consulted.  The second component records whether
a shell process was spawned. -/
def runnerRun (blocked : List String) (shell : String → ShellOutcome)
    (command : String) : RunResult × Bool :=
  if IsBlocked blocked command then
    (⟨command, 1, "", "", some "command is blocked by safety settings"⟩, false)
  else
    let o := shell command
    (⟨command, o.exitCode, o.stdout, o.stderr, o.err⟩, true)

/-- Embeds Go `Runner.RunInteractive`: blocked commands error out before any
process is created.  The second component records whether a shell process was
spawned. -/
def runnerRunInteractive (blocked : List String) (shell : String → Option String)
    (command : String) : Option String × Bool :=
  if IsBlocked blocked command then
    (some "command is blocked by safety settings", false)
  else
    (shell command, true)

/-! ## The query orchestrator's risk gate (processQuery) -/

/-- Outcome of the risk gate at the end of `processQuery`: whether the
command is printed, which warning accompanies it, and whether it is
executed. -/
structure QueryOutcome where
  shown : Bool
  blockingWarning : Bool
  nonblockingWarning : Bool
  executed : Bool
deriving Repr, DecidableEq

/-- Embeds the final decision of `processQuery`: Critical prints a blocking
DANGER warning and returns before the execute-flag check; Dangerous prints a
non-blocking warning and falls through; everything else falls through; the
fall-through path executes exactly when the `-x` flag is set. -/
def processDecision (risk : RiskLevel) (execFlag : Bool) : QueryOutcome :=
  if risk = RiskLevel.Critical then ⟨true, true, false, false⟩
  else if risk = RiskLevel.Dangerous then ⟨true, false, true, execFlag⟩
  else ⟨true, false, false, execFlag⟩

/-! ## internal/llm/local.go -/

/-- Embeds Go `selectModelByRAM`, with the total physical RAM in bytes
(`memory.TotalMemory()`) made an explicit parameter.  `ramGB` is integer
division by 1024³; thresholds are inclusive lower bounds. -/
def selectModelByRAM (totalRAM : Nat) : String :=
  let ramGB := totalRAM / (1024 * 1024 * 1024)
  if ramGB ≥ 8 then "qwen2.5-coder:7b"
  else if ramGB ≥ 4 then "qwen2.5-coder:3b"
  else "qwen2.5-coder:1.5b"

/-! ## ExtractCommand (the command extractor in package executor) -/

/-- The opening triple-backtick fence. -/
def fenceOpen : List Char := [btick, btick, btick]

/-- The closing fence as searched for by the lazy capture: a newline followed
by three backticks. -/
def fenceClose : List Char := ['\n', btick, btick, btick]

/-- Index of the first occurrence of `pat` in `s`, if any. -/
def indexOfSub (s pat : List Char) : Option Nat :=
  match s with
  | [] => if pat.isEmpty then some 0 else none
  | _ :: t => if pat.isPrefixOf s then some 0 else (indexOfSub t pat).map (· + 1)

/-- Characters of the regex class `\s` as a Boolean test. -/
def isGoRegexSpace (c : Char) : Bool :=
  c = '\t' || c = '\n' || c = '\x0c' || c = '\r' || c = ' '

/-- Length of the maximal whitespace run (regex `\s`) at the head of `u`. -/
def wsPrefixLen (u : List Char) : Nat := (u.takeWhile isGoRegexSpace).length

/-- One backtracking attempt of `\s*\n([\s\S]*?)\n` ++ backticks at a fixed
amount `k` of whitespace consumed by `\s*`: the next character must be a
newline and the lazy capture runs to the first `fenceClose` after it. -/
def stepAt (u : List Char) (k : Nat) : Option (List Char) :=
  if (u.drop k).head? = some '\n' then
    match indexOfSub (u.drop (k + 1)) fenceClose with
    | some q => some ((u.drop (k + 1)).take q)
    | none => none
  else none

/-- Greedy backtracking over the amount of whitespace `\s*` consumes: the
largest amount is tried first, counting down to zero. -/
def tryK (u : List Char) : Nat → Option (List Char)
  | 0 => stepAt u 0
  | k + 1 =>
    match stepAt u (k + 1) with
    | some r => some r
    | none => tryK u k

/-- Matches `\s*\n([\s\S]*?)\n` ++ backticks against `u`, returning the lazy
capture of the first backtracking success. -/
def afterTag (u : List Char) : Option (List Char) := tryK u (wsPrefixLen u)

/-- The language-tag alternatives of the fence regex, in source order, with
the empty alternative (the `?`) last. -/
def fenceTags : List (List Char) :=
  ["bash".data, "sh".data, "shell".data, "zsh".data, "cmd".data, "powershell".data, []]

/-- Backtracking over the tag alternatives: the first tag that is a prefix of
`r` and whose continuation succeeds wins. -/
def tryTags (r : List Char) : List (List Char) → Option (List Char)
  | [] => none
  | t :: ts =>
    if t.isPrefixOf r then
      match afterTag (r.drop t.length) with
      | some cap => some cap
      | none => tryTags r ts
    else tryTags r ts

/-- One anchored attempt of the Go fence regex at the start of `s`. -/
def codeBlockAt (s : List Char) : Option (List Char) :=
  if fenceOpen.isPrefixOf s then tryTags (s.drop 3) fenceTags else none

/-- Embeds `codeBlockRe.FindStringSubmatch`'s first capture group: the
leftmost match of the regex, with the per-position
attempt following the engine's backtracking order. -/
def codeBlockFind : List Char → Option (List Char)
  | [] => none
  | s@(_ :: rest) =>
    match codeBlockAt s with
    | some cap => some cap
    | none => codeBlockFind rest

/-- Embeds the first capture group of the inline-code regex (a backtick, one
or more non-backtick characters, a backtick) under leftmost-first semantics:
the first backtick pair enclosing a non-empty backtick-free run wins. -/
def inlineCodeFind : List Char → Option (List Char)
  | [] => none
  | c :: rest =>
    if c = btick then
      match rest.dropWhile (fun d => !(d = btick)) with
      | [] => none
      | _ :: _ =>
        let run := rest.takeWhile (fun d => !(d = btick))
        if run.isEmpty then inlineCodeFind rest else some run
    else inlineCodeFind rest

/-- The literal label prefixes stripped at the top of `ExtractCommand`. -/
def labelStrings : List String :=
  ["Command:", "command:", "CMD:", "cmd:", "$ ", "> "]

/-- Embeds the prefix-stripping loop of `ExtractCommand`: each label in turn
is stripped (followed by a re-trim) if it heads the current text. -/
def stripLabels (s : List Char) : List Char :=
  labelStrings.foldl
    (fun acc p => if p.data.isPrefixOf acc then goTrimSpace (acc.drop p.data.length) else acc) s

/-- Embeds the line scan of `ExtractCommand`: the first non-empty line whose
trimmed form starts with `$`, `>` or `#` is returned with one marker of each
kind stripped in that order, re-trimmed. -/
def firstMarkerLine : List (List Char) → Option (List Char)
  | [] => none
  | ln :: rest =>
    let t := goTrimSpace ln
    if t.isEmpty then firstMarkerLine rest
    else if ['$'].isPrefixOf t || ['>'].isPrefixOf t || ['#'].isPrefixOf t then
      some (goTrimSpace (dropPre ['#'] (dropPre ['>'] (dropPre ['$'] t))))
    else firstMarkerLine rest

/-- The sentence openers that disqualify a line in `looksLikeCommand`. -/
def sentenceOpeners : List String := ["I ", "The ", "This ", "To ", "You ", "Here "]

/-- The known command-name table of `looksLikeCommand`, verbatim. -/
def commandNames : List String :=
  ["ls", "cd", "pwd", "cat", "echo", "grep", "find", "mkdir", "rm", "cp", "mv",
   "git", "docker", "kubectl", "npm", "yarn", "pip", "go", "cargo", "make",
   "curl", "wget", "ssh", "scp", "tar", "zip", "unzip", "chmod", "chown",
   "ps", "kill", "top", "df", "du", "head", "tail", "sort", "uniq", "wc",
   "awk", "sed", "cut", "tr", "diff", "touch", "ln", "file", "which",
   "python", "python3", "node", "ruby", "perl", "java", "javac",
   "brew", "apt", "apt-get", "yum", "dnf", "pacman",
   "sudo", "su", "env", "export", "source", "alias"]

/-- Embeds Go `looksLikeCommand`. -/
def looksLikeCommand (s : List Char) : Bool :=
  if utf8Len s = 0 || 500 < utf8Len s then false
  else if sentenceOpeners.any (fun p => p.data.isPrefixOf s) then false
  else commandNames.any (fun p => (p.data ++ [' ']).isPrefixOf s || s = p.data)

/-- Embeds Go `ExtractCommand` on character lists: trim, strip labels, fenced
code block, inline code span, prompt-marker line scan, first-line heuristic,
whole-text fallback. -/
def extractCore (response : List Char) : List Char :=
  let r1 := stripLabels (goTrimSpace response)
  match codeBlockFind r1 with
  | some m => goTrimSpace m
  | none =>
    match inlineCodeFind r1 with
    | some m => goTrimSpace m
    | none =>
      let lines := splitNl r1
      match firstMarkerLine lines with
      | some v => v
      | none =>
        match lines with
        | [] => r1
        | h :: _ =>
          let firstLine := goTrimSpace h
          if looksLikeCommand firstLine then firstLine else r1

/-- Embeds Go `ExtractCommand` on strings. -/
def ExtractCommand (response : String) : String := ⟨extractCore response.data⟩

/-! ## Helper lemmas about trimming -/

theorem dropWhile_idem (p : Char → Bool) (l : List Char) :
    List.dropWhile p (List.dropWhile p l) = List.dropWhile p l := by
  induction l with
  | nil => simp
  | cons a t ih =>
    by_cases h : p a
    · simp [List.dropWhile_cons, h, ih]
    · simp [List.dropWhile_cons, h]

theorem length_dropWhile_le (p : Char → Bool) (l : List Char) :
    (List.dropWhile p l).length ≤ l.length := by
  induction l with
  | nil => simp
  | cons a t ih =>
    by_cases h : p a
    · simp only [List.dropWhile_cons, h, if_pos]
      exact le_trans ih (by simp)
    · simp [List.dropWhile_cons, h]

theorem trimRight_idem (l : List Char) : trimRightGo (trimRightGo l) = trimRightGo l := by
  simp [trimRightGo, List.reverse_reverse, dropWhile_idem]

theorem trimRight_append (l : List Char) :
    l = trimRightGo l ++ (l.reverse.takeWhile isGoSpace).reverse := by
  have h := List.takeWhile_append_dropWhile (p := isGoSpace) (l := l.reverse)
  have h2 : (List.takeWhile isGoSpace l.reverse ++ List.dropWhile isGoSpace l.reverse).reverse
      = l.reverse.reverse := by rw [h]
  rw [List.reverse_append, List.reverse_reverse] at h2
  exact h2.symm

theorem head_not_space_of_dropWhile_fix {m : List Char} {b : Char} {B : List Char}
    (hm : List.dropWhile isGoSpace m = m) (he : m = b :: B) : isGoSpace b = false := by
  by_contra hcon
  have hb : isGoSpace b = true := by
    cases h : isGoSpace b
    · exact absurd h hcon
    · rfl
  rw [he, List.dropWhile_cons, hb] at hm
  simp at hm
  have hlen := length_dropWhile_le isGoSpace B
  rw [hm] at hlen
  simp at hlen

theorem trimLeft_trimRight_fix {m : List Char} (hm : List.dropWhile isGoSpace m = m) :
    trimLeftGo (trimRightGo m) = trimRightGo m := by
  cases hB : trimRightGo m with
  | nil => simp [trimLeftGo]
  | cons b B =>
    have hdec := trimRight_append m
    rw [hB] at hdec
    have hb : isGoSpace b = false :=
      head_not_space_of_dropWhile_fix hm (by simpa using hdec)
    simp [trimLeftGo, List.dropWhile_cons, hb]

theorem goTrim_idem (l : List Char) : goTrimSpace (goTrimSpace l) = goTrimSpace l := by
  have hm : List.dropWhile isGoSpace (trimLeftGo l) = trimLeftGo l := dropWhile_idem isGoSpace l
  unfold goTrimSpace
  rw [trimLeft_trimRight_fix hm, trimRight_idem]

/-! ## Helper lemmas for the extractor -/

theorem head?_dropN : ∀ (n : Nat) (l : List Char), (l.drop n).head? = l.get? n
  | 0, l => by cases l <;> rfl
  | _ + 1, [] => rfl
  | n + 1, _ :: t => head?_dropN n t

theorem get?_appendL : ∀ (l₁ l₂ : List Char) (n : Nat), n < l₁.length →
    (l₁ ++ l₂).get? n = l₁.get? n
  | [], _, n, h => by simp at h
  | a :: t, l₂, 0, _ => rfl
  | a :: t, l₂, n + 1, h => get?_appendL t l₂ n (by simpa using h)

theorem get?_appendR : ∀ (l₁ l₂ : List Char) (n : Nat),
    (l₁ ++ l₂).get? (l₁.length + n) = l₂.get? n
  | [], _, n => by simp
  | a :: t, l₂, n => by
    have := get?_appendR t l₂ n
    simpa [Nat.succ_add] using this

theorem mem_of_get? : ∀ (l : List Char) (n : Nat) (c : Char), l.get? n = some c → c ∈ l
  | [], n, c, h => by simp [List.get?] at h
  | a :: t, 0, c, h => by
    simp [List.get?] at h
    simp [h]
  | a :: t, n + 1, c, h => by
    have := mem_of_get? t n c (by simpa [List.get?] using h)
    simp [this]

theorem get?_some_of_lt : ∀ (l : List Char) (n : Nat), n < l.length → ∃ c, l.get? n = some c
  | [], n, h => by simp at h
  | a :: t, 0, _ => ⟨a, rfl⟩
  | a :: t, n + 1, h => get?_some_of_lt t n (by simpa using h)

theorem indexOfSub_append (L : List Char) (hnl : '\n' ∉ L) :
    indexOfSub (L ++ fenceClose) fenceClose = some L.length := by
  induction L with
  | nil => decide
  | cons a t ih =>
    have ha : a ≠ '\n' := by
      intro hcon
      exact hnl (by simp [hcon])
    have hpre : fenceClose.isPrefixOf ((a :: t) ++ fenceClose) = false := by
      have : ('\n' == a) = false := by
        cases h : '\n' == a
        · rfl
        · exact absurd (eq_comm.mp (beq_iff_eq.mp h)) ha
      simp [fenceClose, List.isPrefixOf, this]
    rw [List.cons_append, indexOfSub]
    simp only [List.cons_append] at hpre
    rw [hpre]
    simp only [Bool.false_eq_true, if_false]
    rw [ih (fun hc => hnl (by simp [hc]))]
    simp

theorem wsLen_fence_le (L : List Char) : wsPrefixLen (L ++ fenceClose) ≤ L.length + 1 := by
  induction L with
  | nil => decide
  | cons a t ih =>
    rw [List.cons_append, wsPrefixLen, List.takeWhile_cons]
    by_cases h : isGoRegexSpace a
    · simp only [h, if_pos]
      have : (List.takeWhile isGoRegexSpace (t ++ fenceClose)).length ≤ t.length + 1 := ih
      simp only [List.length_cons]
      omega
    · simp [h]

theorem wsLen_cons_nl (w : List Char) : wsPrefixLen ('\n' :: w) = wsPrefixLen w + 1 := by
  rw [wsPrefixLen, List.takeWhile_cons]
  norm_num [isGoRegexSpace, wsPrefixLen]

theorem stepAt_zero (L : List Char) (hnl : '\n' ∉ L) :
    stepAt ('\n' :: (L ++ fenceClose)) 0 = some L := by
  rw [stepAt]
  have h1 : (('\n' :: (L ++ fenceClose)).drop 0).head? = some '\n' := rfl
  rw [h1, if_pos rfl]
  have h2 : ('\n' :: (L ++ fenceClose)).drop (0 + 1) = L ++ fenceClose := rfl
  rw [h2, indexOfSub_append L hnl]
  simp [List.take_left]

theorem stepAt_pos_none (L : List Char) (hnl : '\n' ∉ L) (k : Nat) (hk1 : 1 ≤ k)
    (hk2 : k ≤ wsPrefixLen ('\n' :: (L ++ fenceClose))) :
    stepAt ('\n' :: (L ++ fenceClose)) k = none := by
  obtain ⟨j, rfl⟩ : ∃ j, k = j + 1 := ⟨k - 1, by omega⟩
  have hdrop : ('\n' :: (L ++ fenceClose)).drop (j + 1) = (L ++ fenceClose).drop j := rfl
  have hj : j ≤ wsPrefixLen (L ++ fenceClose) := by
    rw [wsLen_cons_nl] at hk2
    omega
  have hjle : j ≤ L.length + 1 := le_trans hj (wsLen_fence_le L)
  rw [stepAt, hdrop, head?_dropN]
  rcases lt_trichotomy j L.length with hlt | heq | hgt
  · obtain ⟨c, hc⟩ := get?_some_of_lt L j hlt
    have hcmem : c ∈ L := mem_of_get? L j c hc
    have hcne : c ≠ '\n' := fun h => hnl (h ▸ hcmem)
    rw [get?_appendL L fenceClose j hlt, hc]
    rw [if_neg (by simp [hcne])]
  · subst heq
    have h0 : (L ++ fenceClose).get? L.length = some '\n' := by
      have := get?_appendR L fenceClose 0
      simpa [fenceClose] using this
    rw [h0, if_pos rfl]
    have hdrop2 : ('\n' :: (L ++ fenceClose)).drop (L.length + 1 + 1)
        = fenceClose.drop 1 := by
      show (L ++ fenceClose).drop (L.length + 1) = fenceClose.drop 1
      rw [← List.drop_drop, List.drop_left]
    rw [hdrop2]
    decide
  · have hj2 : j = L.length + 1 := by omega
    subst hj2
    have h1 : (L ++ fenceClose).get? (L.length + 1) = some btick := by
      have := get?_appendR L fenceClose 1
      simpa [fenceClose] using this
    rw [h1]
    rw [if_neg (by simp [show btick ≠ '\n' from by decide])]

theorem tryK_all_fail (u : List Char) : ∀ m : Nat,
    (∀ k, 1 ≤ k → k ≤ m → stepAt u k = none) → tryK u m = stepAt u 0
  | 0, _ => rfl
  | m + 1, h => by
    rw [tryK, h (m + 1) (by omega) (le_refl _)]
    exact tryK_all_fail u m (fun k h1 h2 => h k h1 (by omega))

theorem afterTag_fence (L : List Char) (hnl : '\n' ∉ L) :
    afterTag ('\n' :: (L ++ fenceClose)) = some L := by
  rw [afterTag, tryK_all_fail _ _ (fun k h1 h2 => stepAt_pos_none L hnl k h1 h2),
    stepAt_zero L hnl]

theorem isPrefixOf_self_append (l x : List Char) : l.isPrefixOf (l ++ x) = true := by
  induction l with
  | nil => cases x <;> rfl
  | cons a t ih => simp [List.isPrefixOf, ih]

theorem nil_isPrefixOf_true (l : List Char) : List.isPrefixOf [] l = true := by
  cases l <;> rfl

theorem tryTags_fence (tag L : List Char) (htag : tag ∈ fenceTags) (hnl : '\n' ∉ L) :
    tryTags (tag ++ '\n' :: (L ++ fenceClose)) fenceTags = some L := by
  have hself : ∀ t x : List Char, t.isPrefixOf (t ++ x) = true := isPrefixOf_self_append
  simp only [fenceTags, List.mem_cons, List.mem_singleton] at htag
  rcases htag with rfl | rfl | rfl | rfl | rfl | rfl | rfl | habs
  · -- bash
    rw [fenceTags, tryTags, if_pos (hself _ _), List.drop_left, afterTag_fence L hnl]
  · -- sh
    have c1 : ("bash".data.isPrefixOf ("sh".data ++ '\n' :: (L ++ fenceClose))) = false := rfl
    rw [fenceTags, tryTags, if_neg (by rw [c1]; exact Bool.false_ne_true),
      tryTags, if_pos (hself _ _), List.drop_left, afterTag_fence L hnl]
  · -- shell
    have c1 : ("bash".data.isPrefixOf ("shell".data ++ '\n' :: (L ++ fenceClose))) = false := rfl
    have c2 : afterTag (("shell".data ++ '\n' :: (L ++ fenceClose)).drop "sh".data.length) = none := rfl
    rw [fenceTags, tryTags, if_neg (by rw [c1]; exact Bool.false_ne_true),
      tryTags, if_pos (by exact rfl), c2,
      tryTags, if_pos (hself _ _), List.drop_left, afterTag_fence L hnl]
  · -- zsh
    have c1 : ("bash".data.isPrefixOf ("zsh".data ++ '\n' :: (L ++ fenceClose))) = false := rfl
    have c2 : ("sh".data.isPrefixOf ("zsh".data ++ '\n' :: (L ++ fenceClose))) = false := rfl
    have c3 : ("shell".data.isPrefixOf ("zsh".data ++ '\n' :: (L ++ fenceClose))) = false := rfl
    rw [fenceTags, tryTags, if_neg (by rw [c1]; exact Bool.false_ne_true),
      tryTags, if_neg (by rw [c2]; exact Bool.false_ne_true),
      tryTags, if_neg (by rw [c3]; exact Bool.false_ne_true),
      tryTags, if_pos (hself _ _), List.drop_left, afterTag_fence L hnl]
  · -- cmd
    have c1 : ("bash".data.isPrefixOf ("cmd".data ++ '\n' :: (L ++ fenceClose))) = false := rfl
    have c2 : ("sh".data.isPrefixOf ("cmd".data ++ '\n' :: (L ++ fenceClose))) = false := rfl
    have c3 : ("shell".data.isPrefixOf ("cmd".data ++ '\n' :: (L ++ fenceClose))) = false := rfl
    have c4 : ("zsh".data.isPrefixOf ("cmd".data ++ '\n' :: (L ++ fenceClose))) = false := rfl
    rw [fenceTags, tryTags, if_neg (by rw [c1]; exact Bool.false_ne_true),
      tryTags, if_neg (by rw [c2]; exact Bool.false_ne_true),
      tryTags, if_neg (by rw [c3]; exact Bool.false_ne_true),
      tryTags, if_neg (by rw [c4]; exact Bool.false_ne_true),
      tryTags, if_pos (hself _ _), List.drop_left, afterTag_fence L hnl]
  · -- powershell
    have c1 : ("bash".data.isPrefixOf ("powershell".data ++ '\n' :: (L ++ fenceClose))) = false := rfl
    have c2 : ("sh".data.isPrefixOf ("powershell".data ++ '\n' :: (L ++ fenceClose))) = false := rfl
    have c3 : ("shell".data.isPrefixOf ("powershell".data ++ '\n' :: (L ++ fenceClose))) = false := rfl
    have c4 : ("zsh".data.isPrefixOf ("powershell".data ++ '\n' :: (L ++ fenceClose))) = false := rfl
    have c5 : ("cmd".data.isPrefixOf ("powershell".data ++ '\n' :: (L ++ fenceClose))) = false := rfl
    rw [fenceTags, tryTags, if_neg (by rw [c1]; exact Bool.false_ne_true),
      tryTags, if_neg (by rw [c2]; exact Bool.false_ne_true),
      tryTags, if_neg (by rw [c3]; exact Bool.false_ne_true),
      tryTags, if_neg (by rw [c4]; exact Bool.false_ne_true),
      tryTags, if_neg (by rw [c5]; exact Bool.false_ne_true),
      tryTags, if_pos (hself _ _), List.drop_left, afterTag_fence L hnl]
  · -- empty tag
    simp only [List.nil_append]
    have c1 : ("bash".data.isPrefixOf ('\n' :: (L ++ fenceClose))) = false := rfl
    have c2 : ("sh".data.isPrefixOf ('\n' :: (L ++ fenceClose))) = false := rfl
    have c3 : ("shell".data.isPrefixOf ('\n' :: (L ++ fenceClose))) = false := rfl
    have c4 : ("zsh".data.isPrefixOf ('\n' :: (L ++ fenceClose))) = false := rfl
    have c5 : ("cmd".data.isPrefixOf ('\n' :: (L ++ fenceClose))) = false := rfl
    have c6 : ("powershell".data.isPrefixOf ('\n' :: (L ++ fenceClose))) = false := rfl
    rw [fenceTags, tryTags, if_neg (by rw [c1]; exact Bool.false_ne_true),
      tryTags, if_neg (by rw [c2]; exact Bool.false_ne_true),
      tryTags, if_neg (by rw [c3]; exact Bool.false_ne_true),
      tryTags, if_neg (by rw [c4]; exact Bool.false_ne_true),
      tryTags, if_neg (by rw [c5]; exact Bool.false_ne_true),
      tryTags, if_neg (by rw [c6]; exact Bool.false_ne_true),
      tryTags, if_pos (nil_isPrefixOf_true _)]
    rw [List.length_nil, List.drop_zero, afterTag_fence L hnl]
  · exact absurd habs (by simp)

theorem codeBlockFind_fence (tag L : List Char) (htag : tag ∈ fenceTags) (hnl : '\n' ∉ L) :
    codeBlockFind (fenceOpen ++ (tag ++ '\n' :: (L ++ fenceClose))) = some L := by
  have hAt : codeBlockAt (fenceOpen ++ (tag ++ '\n' :: (L ++ fenceClose))) = some L := by
    rw [codeBlockAt, if_pos (isPrefixOf_self_append _ _),
      List.drop_left' (show fenceOpen.length = 3 from rfl), tryTags_fence tag L htag hnl]
  have hshape : fenceOpen ++ (tag ++ '\n' :: (L ++ fenceClose))
      = btick :: (btick :: btick :: (tag ++ '\n' :: (L ++ fenceClose))) := rfl
  rw [hshape] at hAt ⊢
  rw [codeBlockFind, hAt]

theorem trimLeft_of_head (c : Char) (l : List Char) (hc : isGoSpace c = false) :
    trimLeftGo (c :: l) = c :: l := by
  simp [trimLeftGo, List.dropWhile_cons, hc]

theorem trimRight_of_last (l : List Char) (d : Char) (hd : isGoSpace d = false) :
    trimRightGo (l ++ [d]) = l ++ [d] := by
  rw [trimRightGo, List.reverse_append]
  simp only [List.reverse_cons, List.reverse_nil, List.nil_append, List.singleton_append]
  rw [List.dropWhile_cons]
  simp [hd]

theorem goTrim_of_ends (c d : Char) (m : List Char) (hc : isGoSpace c = false)
    (hd : isGoSpace d = false) : goTrimSpace (c :: (m ++ [d])) = c :: (m ++ [d]) := by
  rw [goTrimSpace, trimLeft_of_head c _ hc]
  have h : c :: (m ++ [d]) = (c :: m) ++ [d] := by simp
  rw [h, trimRight_of_last _ _ hd]

theorem goTrim_fence (tag L : List Char) :
    goTrimSpace (fenceOpen ++ (tag ++ '\n' :: (L ++ fenceClose)))
      = fenceOpen ++ (tag ++ '\n' :: (L ++ fenceClose)) := by
  have hshape : fenceOpen ++ (tag ++ '\n' :: (L ++ fenceClose))
      = btick :: ((btick :: btick :: (tag ++ '\n' :: (L ++ ['\n', btick, btick]))) ++ [btick]) := by
    simp [fenceOpen, fenceClose]
  rw [hshape, goTrim_of_ends _ _ _ (by decide) (by decide)]

theorem stripFold_nop : ∀ (ls : List String) (s : List Char),
    (∀ p ∈ ls, p.data.isPrefixOf s = false) →
    List.foldl
      (fun acc p => if p.data.isPrefixOf acc then goTrimSpace (acc.drop p.data.length) else acc)
      s ls = s
  | [], _, _ => rfl
  | p :: rest, s, h => by
    rw [List.foldl_cons]
    have hp : p.data.isPrefixOf s = false := h p (by simp)
    have hif : (if p.data.isPrefixOf s then goTrimSpace (s.drop p.data.length) else s) = s := by
      rw [hp]
      simp
    rw [hif]
    exact stripFold_nop rest s (fun q hq => h q (by simp [hq]))

theorem stripLabels_nop {s : List Char}
    (h : ∀ p ∈ labelStrings, p.data.isPrefixOf s = false) : stripLabels s = s := by
  rw [stripLabels]
  exact stripFold_nop labelStrings s h

theorem extractCore_fence (tag L : List Char) (htag : tag ∈ fenceTags) (hnl : '\n' ∉ L) :
    extractCore (fenceOpen ++ (tag ++ '\n' :: (L ++ fenceClose))) = goTrimSpace L := by
  have hstrip : stripLabels (fenceOpen ++ (tag ++ '\n' :: (L ++ fenceClose)))
      = fenceOpen ++ (tag ++ '\n' :: (L ++ fenceClose)) := by
    apply stripLabels_nop
    intro p hp
    fin_cases hp <;> rfl
  rw [extractCore]
  simp only [goTrim_fence, hstrip, codeBlockFind_fence tag L htag hnl]

theorem data_append (s t : String) : (s ++ t).data = s.data ++ t.data := rfl


theorem ExtractCommand_data (s : String) : (ExtractCommand s).data = extractCore s.data := rfl

/-- Claim C6: for every single line L (no newline, no backtick), ExtractCommand
applied to L wrapped in a triple-backtick fenced code block, optionally tagged
with one of the shell names of the fence regex, returns L trimmed of
surrounding whitespace. -/
theorem C6_fence_roundtrip (tag L : String)
    (htag : tag ∈ (["", "bash", "sh", "shell", "zsh", "cmd", "powershell"] : List String))
    (h : ∀ c ∈ L.data, c ≠ '\n' ∧ c ≠ btick) :
    (ExtractCommand ("```" ++ tag ++ "\n" ++ L ++ "\n```")).data = goTrimSpace L.data := by
  have hnl : '\n' ∉ L.data := fun hc => ((h _ hc).1 rfl)
  have htag2 : tag.data ∈ fenceTags := by
    fin_cases htag <;> decide
  have hb : fenceOpen = "```".data := by decide
  have hf : fenceClose = "\n```".data := by decide
  have hdata : ("```" ++ tag ++ "\n" ++ L ++ "\n```").data
      = fenceOpen ++ (tag.data ++ '\n' :: (L.data ++ fenceClose)) := by
    rw [hb, hf]
    simp [data_append]
  rw [ExtractCommand_data, hdata]
  exact extractCore_fence _ _ htag2 hnl

theorem stripFold_trimFix : ∀ (ls : List String) (s : List Char), goTrimSpace s = s →
    goTrimSpace (List.foldl
      (fun acc p => if p.data.isPrefixOf acc then goTrimSpace (acc.drop p.data.length) else acc)
      s ls)
    = List.foldl
      (fun acc p => if p.data.isPrefixOf acc then goTrimSpace (acc.drop p.data.length) else acc)
      s ls
  | [], _, hs => hs
  | p :: rest, s, hs => by
    rw [List.foldl_cons]
    by_cases hp : p.data.isPrefixOf s = true
    · rw [if_pos hp]
      exact stripFold_trimFix rest _ (goTrim_idem _)
    · rw [if_neg hp]
      exact stripFold_trimFix rest s hs

theorem stripLabels_trimFix (s : List Char) (hs : goTrimSpace s = s) :
    goTrimSpace (stripLabels s) = stripLabels s := by
  rw [stripLabels]
  exact stripFold_trimFix labelStrings s hs

theorem firstMarker_trimFix : ∀ (lines : List (List Char)) (v : List Char),
    firstMarkerLine lines = some v → goTrimSpace v = v
  | [], v, h => by simp [firstMarkerLine] at h
  | ln :: rest, v, h => by
    simp only [firstMarkerLine] at h
    split at h
    · exact firstMarker_trimFix rest v h
    · split at h
      · injection h with h2
        rw [← h2]
        exact goTrim_idem _
      · exact firstMarker_trimFix rest v h

theorem extract_trimFixed (l : List Char) : goTrimSpace (extractCore l) = extractCore l := by
  simp only [extractCore]
  have hr1 : goTrimSpace (stripLabels (goTrimSpace l)) = stripLabels (goTrimSpace l) :=
    stripLabels_trimFix _ (goTrim_idem l)
  cases hcb : codeBlockFind (stripLabels (goTrimSpace l)) with
  | some m => simp only [hcb, goTrim_idem]
  | none =>
    simp only [hcb]
    cases hic : inlineCodeFind (stripLabels (goTrimSpace l)) with
    | some m => simp only [hic, goTrim_idem]
    | none =>
      simp only [hic]
      cases hfm : firstMarkerLine (splitNl (stripLabels (goTrimSpace l))) with
      | some v => simp only [hfm, firstMarker_trimFix _ v hfm]
      | none =>
        simp only [hfm]
        cases hsp : splitNl (stripLabels (goTrimSpace l)) with
        | nil => exact hr1
        | cons h t =>
          by_cases hlc : looksLikeCommand (goTrimSpace h) = true
          · simp only [hlc, if_pos, goTrim_idem]
          · simp only [hlc]
            rw [if_neg]
            · exact hr1
            · simp [hlc]

theorem codeBlockFind_none : ∀ (s : List Char), (∀ c ∈ s, c ≠ btick) →
    codeBlockFind s = none
  | [], _ => rfl
  | a :: t, h => by
    have ha : a ≠ btick := h a (by simp)
    have hAt : codeBlockAt (a :: t) = none := by
      rw [codeBlockAt, if_neg]
      intro hcon
      rw [show fenceOpen = btick :: [btick, btick] from rfl] at hcon
      simp [List.isPrefixOf, Bool.and_eq_true] at hcon
      exact ha hcon.1.symm
    rw [codeBlockFind, hAt]
    exact codeBlockFind_none t (fun c hc => h c (by simp [hc]))

theorem inlineCodeFind_none : ∀ (s : List Char), (∀ c ∈ s, c ≠ btick) →
    inlineCodeFind s = none
  | [], _ => rfl
  | a :: t, h => by
    have ha : a ≠ btick := h a (by simp)
    rw [inlineCodeFind, if_neg ha]
    exact inlineCodeFind_none t (fun c hc => h c (by simp [hc]))

theorem splitNl_no_nl : ∀ (l : List Char), '\n' ∉ l → splitNl l = [l]
  | [], _ => rfl
  | c :: rest, h => by
    have hc : ¬(c = '\n') := fun hcon => h (by simp [hcon])
    rw [splitNl, if_neg hc, splitNl_no_nl rest (fun hcon => h (by simp [hcon]))]

theorem firstMarker_single_none (y : List Char) (hT : goTrimSpace y = y)
    (hm1 : ['$'].isPrefixOf y = false) (hm2 : ['>'].isPrefixOf y = false)
    (hm3 : ['#'].isPrefixOf y = false) :
    firstMarkerLine [y] = none := by
  simp only [firstMarkerLine, hT]
  by_cases he : y.isEmpty = true
  · rw [if_pos he]
  · have hcond : (['$'].isPrefixOf y || ['>'].isPrefixOf y || ['#'].isPrefixOf y) = false := by
      rw [hm1, hm2, hm3]
      rfl
    rw [if_neg he, if_neg (by rw [hcond]; exact Bool.false_ne_true)]

theorem extract_fixed (y : List Char)
    (hT : goTrimSpace y = y)
    (hbt : ∀ c ∈ y, c ≠ btick)
    (hnl : '\n' ∉ y)
    (hlab : ∀ p ∈ labelStrings, p.data.isPrefixOf y = false)
    (hm1 : ['$'].isPrefixOf y = false)
    (hm2 : ['>'].isPrefixOf y = false)
    (hm3 : ['#'].isPrefixOf y = false) :
    extractCore y = y := by
  simp only [extractCore, hT, stripLabels_nop hlab]
  rw [codeBlockFind_none y hbt, inlineCodeFind_none y hbt, splitNl_no_nl y hnl,
    firstMarker_single_none y hT hm1 hm2 hm3]
  simp only [hT]
  by_cases hlc : looksLikeCommand y = true
  · rw [if_pos hlc]
  · rw [if_neg hlc]


/-! ## The claims -/

/-- Claim C1 counterexample: with an empty block list, AssessRisk on the exact
string "rm -rf /tmp/build" returns Critical, not Dangerous as the claim
states: the first critical pattern matches because the deleted path contains a
slash. -/
theorem C1_counterexample :
    AssessRisk [] "rm -rf /tmp/build" = RiskLevel.Critical ∧
    RiskLevel.Critical ≠ RiskLevel.Dangerous := by
  refine ⟨by decide, by decide⟩

/-- Claim C1 (amended): assuming the configured block list contains no
substring of the command, AssessRisk "rm -rf /tmp/build" returns Critical: it
matches the critical pattern for recursive rm whose argument text contains a
slash, tilde, $HOME, star or dot-dot segment. -/
theorem C1_amended_critical (blocked : List String)
    (h : ∀ b ∈ blocked, goContains "rm -rf /tmp/build".data b.data = false) :
    AssessRisk blocked "rm -rf /tmp/build" = RiskLevel.Critical := by
  have e1 : goTrimSpace "rm -rf /tmp/build".data = "rm -rf /tmp/build".data := by decide
  have hany : blocked.any
      (fun b => goContains (goTrimSpace "rm -rf /tmp/build".data) b.data) = false := by
    rw [e1]
    exact List.any_eq_false.mpr (fun b hb => by simp [h b hb])
  simp only [AssessRisk, hany, Bool.false_eq_true, if_false]
  decide

/-- Claim C1 amended witness: the empty block list contains no substring of
the command, and the amended claim evaluates as stated there. -/
theorem C1_amended_critical_witness :
    AssessRisk [] "rm -rf /tmp/build" = RiskLevel.Critical :=
  C1_amended_critical [] (by simp)

/-- Claim C2 counterexample: the command " x" contains the configured blocked
substring " x" verbatim, yet AssessRisk is not Critical, because AssessRisk
trims the command before the block-list check and "x" no longer contains
" x". -/
theorem C2_counterexample :
    goContains " x".data " x".data = true ∧
    AssessRisk [" x"] " x" ≠ RiskLevel.Critical := by
  refine ⟨by decide, by decide⟩

/-- Claim C2 (amended): for every command string and block list, if the
trimmed command contains a configured blocked substring verbatim, then
AssessRisk returns Critical, regardless of any pattern table. -/
theorem C2_blocklist_dominates (blocked : List String) (s : String)
    (h : ∃ b ∈ blocked, goContains (goTrimSpace s.data) b.data = true) :
    AssessRisk blocked s = RiskLevel.Critical := by
  obtain ⟨b, hb, hc⟩ := h
  have hany : blocked.any (fun x => goContains (goTrimSpace s.data) x.data) = true :=
    List.any_eq_true.mpr ⟨b, hb, hc⟩
  simp [AssessRisk, hany]

/-- Claim C2 amended witness: "rm" is configured blocked and occurs verbatim
in the trimmed command "rm -rf x", which is therefore Critical. -/
theorem C2_blocklist_dominates_witness :
    AssessRisk ["rm"] "rm -rf x" = RiskLevel.Critical :=
  C2_blocklist_dominates ["rm"] "rm -rf x" ⟨"rm", by simp, by decide⟩

/-- ShouldAutoExecute never permits a Critical command, whatever the
configured policy string is. -/
theorem shouldAutoExecute_critical_false (policy : String) :
    ShouldAutoExecute policy RiskLevel.Critical = false := by
  unfold ShouldAutoExecute
  split_ifs <;> simp [RiskLevel.toNat]

/-- Claim C3: a command assessed Critical is shown with a blocking warning and
never executed, even with the execute flag set, and ShouldAutoExecute is false
on Critical for every policy value; a command assessed Safe or Moderate is
shown without warning and executed exactly when the execute flag is set. -/
theorem C3_critical_gate (blocked : List String) (cmd : String) (e : Bool) (policy : String) :
    (AssessRisk blocked cmd = RiskLevel.Critical →
      processDecision (AssessRisk blocked cmd) e = ⟨true, true, false, false⟩ ∧
      ShouldAutoExecute policy RiskLevel.Critical = false) ∧
    (AssessRisk blocked cmd = RiskLevel.Safe ∨ AssessRisk blocked cmd = RiskLevel.Moderate →
      processDecision (AssessRisk blocked cmd) e = ⟨true, false, false, e⟩) := by
  constructor
  · intro h
    rw [h]
    exact ⟨by simp [processDecision], shouldAutoExecute_critical_false policy⟩
  · intro h
    rcases h with h | h <;> rw [h] <;> simp [processDecision]

/-- Claim C3 witness: "rm -rf /" is Critical with the empty block list; even
with the execute flag set it is shown with a blocking warning and not
executed, and the "all" policy does not auto-execute Critical. -/
theorem C3_critical_gate_witness :
    processDecision (AssessRisk [] "rm -rf /") true = ⟨true, true, false, false⟩ ∧
    ShouldAutoExecute "all" RiskLevel.Critical = false :=
  (C3_critical_gate [] "rm -rf /" true "all").1 (by decide)

/-- Claim C4 counterexample: the value returned by AssessRisk for a block-list
hit is exactly the same as the value returned for a critical-pattern hit, so
the result carries no producing pattern and no blocked-versus-pattern-matched
provenance. -/
theorem C4_counterexample :
    AssessRisk ["xyzzy"] "xyzzy" = RiskLevel.Critical ∧
    AssessRisk [] "rm -rf /" = RiskLevel.Critical ∧
    AssessRisk ["xyzzy"] "xyzzy" = AssessRisk [] "rm -rf /" := by
  refine ⟨by decide, by decide, by decide⟩

/-- Claim C4 (amended): the risk assessment returns only one of the four
levels Safe, Moderate, Dangerous, Critical; it does not carry the producing
pattern or rule, and a blocked Critical is indistinguishable from a
pattern-matched Critical. -/
theorem C4_levels_only (blocked : List String) (cmd : String) :
    AssessRisk blocked cmd = RiskLevel.Safe ∨ AssessRisk blocked cmd = RiskLevel.Moderate ∨
    AssessRisk blocked cmd = RiskLevel.Dangerous ∨
    AssessRisk blocked cmd = RiskLevel.Critical := by
  cases h : AssessRisk blocked cmd <;> simp

/-- Claim C5 counterexample: ExtractCommand is not idempotent on its own
output: on input a backtick-quoted "#ls" the first pass returns "#ls" via the
inline-code regex, and a second pass strips the "#" prompt marker, returning
"ls". -/
theorem C5_counterexample :
    ExtractCommand (ExtractCommand "`#ls`") ≠ ExtractCommand "`#ls`" := by
  decide

/-- Claim C5 (amended): ExtractCommand is idempotent on its own output
whenever that output is a single line that contains no backtick and does not
begin with a label prefix or a prompt marker. -/
theorem C5_idempotent_on_clean_output (x : String)
    (hbt : ∀ c ∈ (ExtractCommand x).data, c ≠ btick)
    (hnl : '\n' ∉ (ExtractCommand x).data)
    (hlab : ∀ p ∈ labelStrings, p.data.isPrefixOf (ExtractCommand x).data = false)
    (hm1 : ['$'].isPrefixOf (ExtractCommand x).data = false)
    (hm2 : ['>'].isPrefixOf (ExtractCommand x).data = false)
    (hm3 : ['#'].isPrefixOf (ExtractCommand x).data = false) :
    ExtractCommand (ExtractCommand x) = ExtractCommand x := by
  have hT : goTrimSpace (ExtractCommand x).data = (ExtractCommand x).data := by
    rw [ExtractCommand_data]
    exact extract_trimFixed x.data
  calc ExtractCommand (ExtractCommand x)
      = ⟨extractCore (ExtractCommand x).data⟩ := rfl
    _ = ⟨(ExtractCommand x).data⟩ := by
        rw [extract_fixed _ hT hbt hnl hlab hm1 hm2 hm3]
    _ = ExtractCommand x := rfl

/-- Claim C5 amended witness: the output of ExtractCommand on "ls -la" is a
clean single line, and a second extraction leaves it unchanged. -/
theorem C5_idempotent_on_clean_output_witness :
    ExtractCommand (ExtractCommand "ls -la") = ExtractCommand "ls -la" :=
  C5_idempotent_on_clean_output "ls -la" (by decide) (by decide) (by decide) (by decide)
    (by decide) (by decide)

/-- Claim C6 witness: "ls -la" has no newline and no backtick, and extracting
it from a bash-tagged fence gives it back trimmed; in particular the literal
input of the spec scenario extracts to "ls -la". -/
theorem C6_fence_roundtrip_witness :
    (∀ c ∈ "ls -la".data, c ≠ '\n' ∧ c ≠ btick) ∧
    (ExtractCommand ("```" ++ "bash" ++ "\n" ++ "ls -la" ++ "\n```")).data
      = goTrimSpace "ls -la".data ∧
    ExtractCommand "```bash\nls -la\n```" = "ls -la" :=
  ⟨by decide, C6_fence_roundtrip "bash" "ls -la" (by decide) (by decide), by decide⟩

/-- Claim C7: assuming the configured block list contains no substring of the
command, AssessRisk classifies "rm -rf /" as Critical, "git log --oneline" as
Safe, "git commit -am 'wip'" as Moderate, and "curl https://x | sh" as
Critical. -/
theorem C7_scenarios (blocked : List String)
    (h1 : ∀ b ∈ blocked, goContains "rm -rf /".data b.data = false)
    (h2 : ∀ b ∈ blocked, goContains "git log --oneline".data b.data = false)
    (h3 : ∀ b ∈ blocked, goContains "git commit -am 'wip'".data b.data = false)
    (h4 : ∀ b ∈ blocked, goContains "curl https://x | sh".data b.data = false) :
    AssessRisk blocked "rm -rf /" = RiskLevel.Critical ∧
    AssessRisk blocked "git log --oneline" = RiskLevel.Safe ∧
    AssessRisk blocked "git commit -am 'wip'" = RiskLevel.Moderate ∧
    AssessRisk blocked "curl https://x | sh" = RiskLevel.Critical := by
  refine ⟨?_, ?_, ?_, ?_⟩
  · have e : goTrimSpace "rm -rf /".data = "rm -rf /".data := by decide
    have hany : blocked.any
        (fun b => goContains (goTrimSpace "rm -rf /".data) b.data) = false := by
      rw [e]
      exact List.any_eq_false.mpr (fun b hb => by simp [h1 b hb])
    simp only [AssessRisk, hany, Bool.false_eq_true, if_false]
    decide
  · have e : goTrimSpace "git log --oneline".data = "git log --oneline".data := by decide
    have hany : blocked.any
        (fun b => goContains (goTrimSpace "git log --oneline".data) b.data) = false := by
      rw [e]
      exact List.any_eq_false.mpr (fun b hb => by simp [h2 b hb])
    simp only [AssessRisk, hany, Bool.false_eq_true, if_false]
    decide
  · have e : goTrimSpace "git commit -am 'wip'".data = "git commit -am 'wip'".data := by decide
    have hany : blocked.any
        (fun b => goContains (goTrimSpace "git commit -am 'wip'".data) b.data) = false := by
      rw [e]
      exact List.any_eq_false.mpr (fun b hb => by simp [h3 b hb])
    simp only [AssessRisk, hany, Bool.false_eq_true, if_false]
    decide
  · have e : goTrimSpace "curl https://x | sh".data = "curl https://x | sh".data := by decide
    have hany : blocked.any
        (fun b => goContains (goTrimSpace "curl https://x | sh".data) b.data) = false := by
      rw [e]
      exact List.any_eq_false.mpr (fun b hb => by simp [h4 b hb])
    simp only [AssessRisk, hany, Bool.false_eq_true, if_false]
    decide

/-- Claim C7 witness: the empty block list contains no substring of any of the
four commands, and the four classifications evaluate as stated. -/
theorem C7_scenarios_witness :
    AssessRisk [] "rm -rf /" = RiskLevel.Critical ∧
    AssessRisk [] "git log --oneline" = RiskLevel.Safe ∧
    AssessRisk [] "git commit -am 'wip'" = RiskLevel.Moderate ∧
    AssessRisk [] "curl https://x | sh" = RiskLevel.Critical :=
  C7_scenarios [] (by simp) (by simp) (by simp) (by simp)

/-- Claim C8: model selection is a pure step function of total physical RAM in
bytes with inclusive lower bounds: at least 8 GiB selects qwen2.5-coder:7b,
at least 4 GiB but below 8 GiB selects qwen2.5-coder:3b, and below 4 GiB
selects qwen2.5-coder:1.5b; being a function, it is deterministic in RAM. -/
theorem C8_ram_selection (ram : Nat) :
    (8 * 2 ^ 30 ≤ ram → selectModelByRAM ram = "qwen2.5-coder:7b") ∧
    (4 * 2 ^ 30 ≤ ram ∧ ram < 8 * 2 ^ 30 → selectModelByRAM ram = "qwen2.5-coder:3b") ∧
    (ram < 4 * 2 ^ 30 → selectModelByRAM ram = "qwen2.5-coder:1.5b") := by
  have hk : 0 < 1024 * 1024 * 1024 := by norm_num
  refine ⟨?_, ?_, ?_⟩
  · intro h
    have h8 : 8 ≤ ram / (1024 * 1024 * 1024) :=
      (Nat.le_div_iff_mul_le hk).mpr (by omega)
    simp [selectModelByRAM, ge_iff_le, h8]
  · rintro ⟨h4, h8⟩
    have h4a : 4 ≤ ram / (1024 * 1024 * 1024) :=
      (Nat.le_div_iff_mul_le hk).mpr (by omega)
    have h8a : ¬ 8 ≤ ram / (1024 * 1024 * 1024) := by
      intro hc
      have := (Nat.le_div_iff_mul_le hk).mp hc
      omega
    simp [selectModelByRAM, ge_iff_le, h4a, h8a]
  · intro h
    have h4a : ¬ 4 ≤ ram / (1024 * 1024 * 1024) := by
      intro hc
      have := (Nat.le_div_iff_mul_le hk).mp hc
      omega
    have h8a : ¬ 8 ≤ ram / (1024 * 1024 * 1024) := by
      intro hc
      have := (Nat.le_div_iff_mul_le hk).mp hc
      omega
    simp [selectModelByRAM, ge_iff_le, h4a, h8a]

/-- Claim C8 witness: the boundary values select the higher tier — exactly
8 GiB gives the 7b model, exactly 4 GiB gives the 3b model, and one byte less
than 4 GiB gives the 1.5b model. -/
theorem C8_ram_selection_witness :
    selectModelByRAM (8 * 2 ^ 30) = "qwen2.5-coder:7b" ∧
    selectModelByRAM (4 * 2 ^ 30) = "qwen2.5-coder:3b" ∧
    selectModelByRAM (4 * 2 ^ 30 - 1) = "qwen2.5-coder:1.5b" :=
  ⟨(C8_ram_selection (8 * 2 ^ 30)).1 (by norm_num),
   (C8_ram_selection (4 * 2 ^ 30)).2.1 ⟨by norm_num, by norm_num⟩,
   (C8_ram_selection (4 * 2 ^ 30 - 1)).2.2 (by norm_num)⟩

/-- Claim C9: for every command the block list flags, Runner.Run returns a
Result with exit code 1, empty stdout and stderr, and a non-nil error without
spawning a shell process, and Runner.RunInteractive returns an error without
executing the command, whatever the shell would have produced. -/
theorem C9_blocked_execution (blocked : List String) (shell : String → ShellOutcome)
    (shellI : String → Option String) (cmd : String)
    (h : IsBlocked blocked cmd = true) :
    runnerRun blocked shell cmd =
      (⟨cmd, 1, "", "", some "command is blocked by safety settings"⟩, false) ∧
    runnerRunInteractive blocked shellI cmd =
      (some "command is blocked by safety settings", false) := by
  constructor <;> simp [runnerRun, runnerRunInteractive, h]

/-- Claim C9 witness: with "rm" blocked, the command "rm -rf /x" is refused by
both Run and RunInteractive without consulting the shell. -/
theorem C9_blocked_execution_witness :
    runnerRun ["rm"] (fun _ => ⟨0, "", "", none⟩) "rm -rf /x" =
      (⟨"rm -rf /x", 1, "", "", some "command is blocked by safety settings"⟩, false) ∧
    runnerRunInteractive ["rm"] (fun _ => none) "rm -rf /x" =
      (some "command is blocked by safety settings", false) :=
  C9_blocked_execution ["rm"] (fun _ => ⟨0, "", "", none⟩) (fun _ => none) "rm -rf /x"
    (by decide)

/-- Claim C10: risk classification is invariant under surrounding whitespace:
AssessRisk of the trimmed command equals AssessRisk of the command, for every
block list, because AssessRisk trims its input first and trimming is
idempotent. -/
theorem C10_trim_invariant (blocked : List String) (s : String) :
    AssessRisk blocked (goTrimString s) = AssessRisk blocked s := by
  simp [AssessRisk, goTrimString, goTrim_idem]
